import Mathlib

/-!
Verification of the CAMP metaclass registry and class/property core
(`src/include/camp/class.hpp`, `src/include/camp/detail/classmanager.hpp`,
`src/include/camp/property.hpp`, `src/include/camp/simpleproperty.hpp`).

The repository ships only the headers: every function body (`class.cpp`,
`classmanager.cpp`, `property.cpp`, `class.inl`) is absent.  The data members
declared in the headers are therefore authoritative for the state, and the
behaviour of each operation is modelled from the spec, constrained to be a
function of that declared state.  Error names follow the spec's taxonomy
(section 7); the headers call `UnknownClass` / `IndexOutOfRange`
`InvalidClass` / `InvalidIndex`.
-/

namespace Camp

/-- Modelled from the spec: the error taxonomy of section 7 (the bodies that
raise these errors are not in the sources, only the header doc comments). -/
inductive CampError where
  | DuplicateClass
  | DuplicateProperty
  | DuplicateFunction
  | UnknownClass
  | UnknownProperty
  | UnknownFunction
  | IndexOutOfRange
  | InvalidObject
  | InvalidAccess
  | InvalidValue
deriving DecidableEq, Repr

/-- Modelled from the spec: the opaque bound-instance wrapper `UserObject`
(out of scope per section 1; the core only uses the validity check
`isValid(object)` and treats the instance itself as an opaque carrier).
`valid` models `isValid`, `addr` the raw instance address. -/
structure UserObject where
  valid : Bool
  addr : Int
deriving DecidableEq, Repr

/-- Modelled from the spec: the value kinds of `camp::Type`
(`camp/type.hpp` is not in the sources; section 3 mentions scalar kinds,
enum, bound-object and array kinds). -/
inductive CampType where
  | noType
  | boolType
  | intType
  | stringType
  | userType
deriving DecidableEq, Repr

/-- Modelled from the spec: the opaque dynamic value carrier `Value`
(out of scope per section 1). -/
inductive Value where
  | noneV
  | boolV (b : Bool)
  | intV (n : Int)
  | stringV (s : String)
  | userV (u : Nat)
deriving DecidableEq, Repr

/-- Kind of a `Value`, used by the conversion contract. -/
def Value.campType : Value → CampType
  | .noneV => .noType
  | .boolV _ => .boolType
  | .intV _ => .intType
  | .stringV _ => .stringType
  | .userV _ => .userType

/-- Modelled from the spec: the opaque conversion contract
`convert(value, targetType) -> Value | fails with InvalidValue` (section 6).
A value converts to its own kind unchanged; booleans and integers convert
among the scalar kinds; `noneV` and bound objects convert to no other kind. -/
def convert (v : Value) (t : CampType) : Option Value :=
  if v.campType = t then some v
  else
    match v, t with
    | .boolV b, .intType => some (.intV (if b then 1 else 0))
    | .boolV b, .stringType => some (.stringV (if b then "true" else "false"))
    | .intV n, .boolType => some (.boolV (n ≠ 0))
    | .intV n, .stringType => some (.stringV (toString n))
    | _, _ => none

/-- Modelled from the spec: `camp::detail::Getter<bool>` (declared as the type
of `m_readable` / `m_writable` in `property.hpp` but defined outside the
sources).  Section 4.3: a guard is either a construction-time default or a
per-instance predicate, and the instance-level override supersedes the
default when supplied. -/
structure BoolGetter where
  defaultVal : Bool
  instanceOverride : Option (UserObject → Bool)

/-- Evaluate a guard against a bound instance: the per-object predicate when
one was supplied, the construction-time default otherwise. -/
def BoolGetter.get (g : BoolGetter) (o : UserObject) : Bool :=
  match g.instanceOverride with
  | some f => f o
  | none => g.defaultVal

/-- Model of `camp::Property` (`property.hpp` lines 29-158).  The declared
state is `m_name`, `m_type`, `m_readable`, `m_writable`; `structReadable` /
`structWritable` model the virtual `isReadable()` / `isWritable()` hooks
(default `true`, overridden structurally by subclasses), and `getValueImpl` /
`setValueImpl` model the pure virtual `getValue` / `setValue` of the concrete
subclass.  `setValueImpl` returns the updated bound instance. -/
structure Property where
  m_name : String
  m_type : CampType
  m_readable : BoolGetter
  m_writable : BoolGetter
  structReadable : Bool
  structWritable : Bool
  getValueImpl : UserObject → Value
  setValueImpl : UserObject → Value → UserObject

/-- Combined readable state of a property for a given object: the structural
hook and the guard must both allow reading. -/
def Property.readableVal (p : Property) (o : UserObject) : Bool :=
  p.structReadable && p.m_readable.get o

/-- Combined writable state of a property for a given object. -/
def Property.writableVal (p : Property) (o : UserObject) : Bool :=
  p.structWritable && p.m_writable.get o

/-- Modelled from the spec: `Property::readable(object)` (`property.hpp`
line 61; body absent).  Section 4.3: evaluates the readable guard, failing
with `InvalidObject` when the object is invalid. -/
def Property.readable (p : Property) (o : UserObject) : Except CampError Bool :=
  if o.valid then .ok (p.readableVal o) else .error .InvalidObject

/-- Modelled from the spec: `Property::writable(object)` (`property.hpp`
line 72; body absent). -/
def Property.writable (p : Property) (o : UserObject) : Except CampError Bool :=
  if o.valid then .ok (p.writableVal o) else .error .InvalidObject

/-- Modelled from the spec: `Property::get(object)` (`property.hpp` line 84;
body absent).  Section 4.3: fails with `InvalidObject` on an invalid object,
with `InvalidAccess` when not readable, otherwise delegates to the concrete
subclass's read implementation. -/
def Property.get (p : Property) (o : UserObject) : Except CampError Value :=
  if !o.valid then .error .InvalidObject
  else if !p.readableVal o then .error .InvalidAccess
  else .ok (p.getValueImpl o)

/-- Modelled from the spec: `Property::set(object, value)` (`property.hpp`
line 96; body absent).  Section 4.3: fails with `InvalidObject` /
`InvalidAccess` analogously to `get`, additionally fails with `InvalidValue`
when the value cannot convert to the property's declared type, otherwise
delegates to the concrete subclass's write implementation. -/
def Property.set (p : Property) (o : UserObject) (v : Value) :
    Except CampError UserObject :=
  if !o.valid then .error .InvalidObject
  else if !p.writableVal o then .error .InvalidAccess
  else
    match convert v p.m_type with
    | none => .error .InvalidValue
    | some w => .ok (p.setValueImpl o w)

/-- Model of `camp::Function` (referenced only by signature per section 2;
kept abstract: a name and a callable). -/
structure Function where
  m_name : String
  call : List Value → Option Value

/-- Model of `camp::Constructor` (section 2: invoke with arguments, return a
new instance).  `matchesArgs` models `Constructor::matches`, telling whether
an argument list is accepted; `create` yields the address of the new
instance. -/
structure Constructor where
  matchesArgs : List Value → Bool
  create : List Value → Int

/-- Model of `camp::Class` (`class.hpp` lines 82-307).  The declared state is
`m_name`, `m_bases` (a vector of `BaseInfo { const Class* base; int offset; }`),
`m_functions` and `m_properties` (both `std::map` keyed by name, hence stored
sorted by name), and `m_constructors` (a vector).  The `std::map` tables are
modelled as key-sorted association lists, the vectors as lists in
registration order. -/
inductive Class where
  | mk (name : String) (bases : List (Class × Int))
      (functions : List (String × Function))
      (properties : List (String × Property))
      (constructors : List Constructor)

/-- Name of the metaclass (`Class::name`). -/
def Class.name : Class → String
  | .mk n _ _ _ _ => n

/-- Base links of the metaclass (`Class::m_bases`), each carrying the byte
offset of the base subobject. -/
def Class.bases : Class → List (Class × Int)
  | .mk _ b _ _ _ => b

/-- Function table of the metaclass (`Class::m_functions`). -/
def Class.functions : Class → List (String × Function)
  | .mk _ _ f _ _ => f

/-- Property table of the metaclass (`Class::m_properties`). -/
def Class.properties : Class → List (String × Property)
  | .mk _ _ _ p _ => p

/-- Constructor list of the metaclass (`Class::m_constructors`). -/
def Class.constructors : Class → List Constructor
  | .mk _ _ _ _ c => c

mutual

/-- Modelled from the spec: transitive containment of a target base in the
inheritance graph ("an entry whose base transitively contains targetBase",
section 4.2).  Metaclass equality is by name (`Class::operator==`,
`class.hpp` line 248). -/
def Class.containsBase : Class → Class → Bool
  | .mk n bs _ _ _, t => (n = t.name) || Class.anyContainsBase bs t

/-- Helper of `Class.containsBase`: whether some entry of a base list
transitively contains the target. -/
def Class.anyContainsBase : List (Class × Int) → Class → Bool
  | [], _ => false
  | (b, _) :: rest, t => b.containsBase t || Class.anyContainsBase rest t

end

mutual

/-- Modelled from the spec: `Class::applyOffset(pointer, base)` (`class.hpp`
line 280; body absent).  Section 4.2: if the target equals this class
(equality by name), succeed with no change; otherwise search the immediate
base list depth-first for the first entry whose base transitively contains
the target, add that entry's recorded byte offset and recurse into that
base; fail when no path exists.  The C++ in-out pointer plus boolean result
is modelled as `Option Int` on the pointer's address. -/
def Class.applyOffset : Class → Int → Class → Option Int
  | .mk n bs _ _ _, p, t =>
    if n = t.name then some p else Class.applyOffsetBases bs p t

/-- Helper of `Class.applyOffset`: scan the base list in registration order
for the first entry through which the target is reachable. -/
def Class.applyOffsetBases : List (Class × Int) → Int → Class → Option Int
  | [], _, _ => none
  | (b, off) :: rest, p, t =>
    if b.containsBase t then b.applyOffset (p + off) t
    else Class.applyOffsetBases rest p t

end

/-- Modelled from the spec: `Class::hasProperty(name)` (`class.hpp` line 180;
body absent): membership of the name in the property table `m_properties`. -/
def Class.hasProperty (c : Class) (s : String) : Bool :=
  (c.properties.lookup s).isSome

/-- Modelled from the spec: the name overload of `Class::property(name)`
(`class.hpp` line 202; body absent): looks the name up in `m_properties` and
fails with `UnknownProperty` (header name `InvalidProperty`) when absent. -/
def Class.propertyByName (c : Class) (s : String) : Except CampError Property :=
  match c.properties.lookup s with
  | some p => .ok p
  | none => .error .UnknownProperty

/-- Modelled from the spec: `Class::hasFunction(name)` (`class.hpp` line 142;
body absent). -/
def Class.hasFunction (c : Class) (s : String) : Bool :=
  (c.functions.lookup s).isSome

/-- Modelled from the spec: the name overload of `Class::function(name)`
(`class.hpp` line 164; body absent): fails with `UnknownFunction` (header
name `InvalidFunction`) when the name is absent from `m_functions`. -/
def Class.functionByName (c : Class) (s : String) : Except CampError Function :=
  match c.functions.lookup s with
  | some f => .ok f
  | none => .error .UnknownFunction

/-- Modelled from the spec: the constructor-selection loop of
`Class::construct` — try each registered constructor in registration order
and create from the first one that accepts the argument list. -/
def tryConstructors : List Constructor → List Value → Option Int
  | [], _ => none
  | k :: rest, args =>
    if k.matchesArgs args then some (k.create args) else tryConstructors rest args

/-- Modelled from the spec: `Class::construct<T>(args)` (`class.hpp`
lines 204-216; the body, in `class.inl`, is absent).  Section 4.2: try each
registered constructor in order; on success adjust the new instance's
address to the requested target kind — the bound class itself, one of its
bases (via `applyOffset`), or an untyped handle (`T = void`, modelled as
`none`); return null (`Option.none`) when no constructor accepts the
arguments or the target kind is incompatible, never a thrown failure. -/
def Class.construct (c : Class) (target : Option Class) (args : List Value) :
    Option Int :=
  match tryConstructors c.constructors args with
  | none => none
  | some ptr =>
    match target with
    | none => some ptr
    | some t => c.applyOffset ptr t

/-- Events presented to a `ClassVisitor`, identified by entity kind and
name. -/
inductive VisitEvent where
  | baseE (name : String)
  | propE (name : String)
  | funcE (name : String)
deriving DecidableEq, Repr

/-- Modelled from the spec: `Class::visit(visitor)` (`class.hpp` line 237;
body absent).  Sections 4.2 and 6: present every base, every property and
every function to the visitor, one visit call per entity, in the Class's
stored order — `m_bases` is a vector (registration order) while
`m_properties` and `m_functions` are `std::map`s (name-sorted order).  The
traversal is modelled as the pure sequence of visit events, which by
construction cannot mutate the Class. -/
def Class.visitSeq (c : Class) : List VisitEvent :=
  c.bases.map (fun b => .baseE b.1.name)
    ++ c.properties.map (fun p => .propE p.1)
    ++ c.functions.map (fun f => .funcE f.1)

/-- Names of the base entities of a visit, in visit order. -/
def Class.visitBaseNames (c : Class) : List String :=
  c.visitSeq.filterMap fun e =>
    match e with
    | .baseE n => some n
    | _ => none

/-- Names of the property entities of a visit, in visit order. -/
def Class.visitPropNames (c : Class) : List String :=
  c.visitSeq.filterMap fun e =>
    match e with
    | .propE n => some n
    | _ => none

/-- Names of the function entities of a visit, in visit order. -/
def Class.visitFuncNames (c : Class) : List String :=
  c.visitSeq.filterMap fun e =>
    match e with
    | .funcE n => some n
    | _ => none

/-- Lexicographic comparison of character sequences by code point: the
`std::string` `operator<` that orders the keys of a `std::map`. -/
def charsLt : List Char → List Char → Bool
  | [], [] => false
  | [], _ :: _ => true
  | _ :: _, [] => false
  | c :: cs, d :: ds =>
    if c.toNat < d.toNat then true
    else if d.toNat < c.toNat then false
    else charsLt cs ds

/-- Lexicographic order on strings, the key order of the modelled
`std::map`s. -/
def strLt (a b : String) : Bool := charsLt a.data b.data

/-- Lookup in a `std::map` modelled as an association list
(`map::find`): first entry with the given key, if any. -/
def mapFind (k : String) : List (String × α) → Option α
  | [] => none
  | (q, v) :: rest => if k = q then some v else mapFind k rest

/-- Insertion into a `std::map` modelled as a key-sorted association list
(`map::insert`): place the new pair at its ordered position; like
`std::map::insert`, an already-present key leaves the map unchanged. -/
def mapInsert (k : String) (v : α) : List (String × α) → List (String × α)
  | [] => [(k, v)]
  | (q, w) :: rest =>
    if strLt k q then (k, v) :: (q, w) :: rest
    else if k = q then (q, w) :: rest
    else (q, w) :: mapInsert k v rest

/-- Insertion into the by-identifier table (`m_byId`): append the new class
to the sequence bound to the identifier, creating the sequence at its sorted
position when the identifier is new. -/
def byIdInsert (id : String) (h : Nat) : List (String × List Nat) → List (String × List Nat)
  | [] => [(id, [h])]
  | (q, l) :: rest =>
    if strLt id q then (id, [h]) :: (q, l) :: rest
    else if id = q then (q, l ++ [h]) :: rest
    else (q, l) :: byIdInsert id h rest

/-- Well-formedness of a modelled `std::map`: entries strictly sorted by
key (which also makes the keys duplicate-free). -/
def KeySorted (l : List (String × α)) : Prop :=
  List.Pairwise (fun a b => strLt a.1 b.1 = true) l

/-- Model of `camp::detail::ClassManager` (`classmanager.hpp` lines 30-140).
The declared state (lines 134-139) is exactly `m_byName`
(`std::map<std::string, ClassPtr>`) and `m_byId`
(`std::map<std::string, std::vector<ClassPtr>>`); both are modelled as
key-sorted association lists.  A `ClassPtr` identity is modelled as a `Nat`
handle assigned in creation order; `nextHandle` models the allocator (the
number of classes created so far). -/
structure ClassManager where
  m_byName : List (String × Nat)
  m_byId : List (String × List Nat)
  nextHandle : Nat
deriving DecidableEq, Repr

namespace ClassManager

/-- State of the lazily created singleton before any registration. -/
def empty : ClassManager := ⟨[], [], 0⟩

/-- Modelled from the spec: `ClassManager::registerNew(name, id)`
(`classmanager.hpp` line 52; body absent).  Section 4.1: fail with
`DuplicateClass` when the name already exists in `m_byName`; otherwise
create a new class, insert it into `m_byName`, append it to the
`m_byId[id]` sequence, and return it.  The state is threaded explicitly so
the failed call's effect on the state is observable. -/
def registerNew (r : ClassManager) (name id : String) :
    ClassManager × Except CampError Nat :=
  if (mapFind name r.m_byName).isSome then (r, .error .DuplicateClass)
  else
    (⟨mapInsert name r.nextHandle r.m_byName,
      byIdInsert id r.nextHandle r.m_byId,
      r.nextHandle + 1⟩, .ok r.nextHandle)

/-- Modelled from the spec: `ClassManager::getByName(name)`
(`classmanager.hpp` line 63; body absent): fails with `UnknownClass`
(header name `InvalidClass`) when the name is absent. -/
def getByName (r : ClassManager) (name : String) : Except CampError Nat :=
  match mapFind name r.m_byName with
  | some h => .ok h
  | none => .error .UnknownClass

/-- Modelled from the spec: the identifier overload of `ClassManager::count`
(`classmanager.hpp` line 72; body absent): the number of metaclasses bound
to the identifier, `0` when none. -/
def countId (r : ClassManager) (id : String) : Nat :=
  ((mapFind id r.m_byId).getD []).length

/-- Modelled from the spec: `ClassManager::getById(id, index)`
(`classmanager.hpp` line 88; body absent).  Section 4.1: fails with
`UnknownClass` when `count(id) == 0`, with `IndexOutOfRange` (header name
`InvalidIndex`) when `index >= count(id)`, otherwise returns the index-th
metaclass bound to the identifier. -/
def getById (r : ClassManager) (id : String) (i : Nat) : Except CampError Nat :=
  let l := (mapFind id r.m_byId).getD []
  if l.length = 0 then .error .UnknownClass
  else if l.length ≤ i then .error .IndexOutOfRange
  else .ok (l.getD i 0)

/-- Modelled from the spec: the global overload of `ClassManager::count`
(`classmanager.hpp` line 95; body absent): the total number of registered
metaclasses, i.e. the size of `m_byName`. -/
def countTotal (r : ClassManager) : Nat :=
  r.m_byName.length

/-- Modelled from the spec: `ClassManager::getByIndex(index)`
(`classmanager.hpp` line 109; body absent).  The only global container in
the declared state is `m_byName`, so the global enumeration walks that map
in its stored (name-sorted) order; fails with `IndexOutOfRange` when
`index >= count()`. -/
def getByIndex (r : ClassManager) (i : Nat) : Except CampError Nat :=
  if r.m_byName.length ≤ i then .error .IndexOutOfRange
  else .ok (r.m_byName.getD i ("", 0)).2

/-- Modelled from the spec: `ClassManager::classExists(id)`
(`classmanager.hpp` line 118; body absent): true iff `count(id) > 0`. -/
def classExists (r : ClassManager) (id : String) : Bool :=
  countId r id != 0

/-- Run a sequence of registrations (name, identifier) against a manager
state, ignoring the per-call results. -/
def registerSequence (r : ClassManager) : List (String × String) → ClassManager
  | [] => r
  | (n, id) :: rest => registerSequence (registerNew r n id).1 rest

end ClassManager

/-- Leaf metaclass of a single-inheritance chain. -/
def chainA (nA : String) : Class := .mk nA [] [] [] []

/-- Middle metaclass of a single-inheritance chain: `B` derives from `A`
with byte offset `o2`. -/
def chainB (nA nB : String) (o2 : Int) : Class :=
  .mk nB [(chainA nA, o2)] [] [] []

/-- Bottom metaclass of a single-inheritance chain: `C` derives from `B`
with byte offset `o1`. -/
def chainC (nA nB nC : String) (o1 o2 : Int) : Class :=
  .mk nC [(chainB nA nB o2, o1)] [] [] []

/-- Guarded test property used by the witnesses: readable and writable
exactly on instances whose address is 1, of declared integer type. -/
def guardedProp : Property where
  m_name := "prop"
  m_type := .intType
  m_readable := ⟨true, some fun o => o.addr == 1⟩
  m_writable := ⟨true, some fun o => o.addr == 1⟩
  structReadable := true
  structWritable := true
  getValueImpl := fun _ => .intV 7
  setValueImpl := fun o _ => o

/-- Constructor accepting exactly one-element argument lists, used by the
C8 witness. -/
def unaryCtor : Constructor where
  matchesArgs := fun args => args.length == 1
  create := fun _ => 1000

/-- Constructor accepting exactly two-element argument lists, used by the
C8 witness. -/
def binaryCtor : Constructor where
  matchesArgs := fun args => args.length == 2
  create := fun _ => 2000

/-- Dummy function used by the visit examples. -/
def noopFunc : Function where
  m_name := "func"
  call := fun _ => none

/-- Visit example: a class whose property table was populated by appending
a property named `b` first and a property named `a` second (the map inserts
of the builder's append-property calls, in that order). -/
def regOrderClass : Class :=
  .mk "X" [] [] (mapInsert "a" guardedProp (mapInsert "b" guardedProp [])) []

/-- Visit example: a class with one base, two properties and two functions,
used by the C9 witness. -/
def visitClass : Class :=
  .mk "X" [(chainA "Base", 4)]
    (mapInsert "f" noopFunc (mapInsert "g" noopFunc []))
    (mapInsert "a" guardedProp (mapInsert "b" guardedProp [])) []

/-! Theorems about the claims. -/

/-- C1: for a single-inheritance chain `A <- B <- C` whose base links record
byte offsets `o1` (C to B) and `o2` (B to A), `Class::applyOffset` on a
pointer `p` typed as `C` with target base `A` succeeds and yields the
address `p + o1 + o2`, equal to the composition of the two single-step
adjustments (C to B, then B to A). -/
theorem applyOffset_chain (nA nB nC : String) (o1 o2 p : Int)
    (hCA : nC ≠ nA) (hCB : nC ≠ nB) (hBA : nB ≠ nA) :
    (chainC nA nB nC o1 o2).applyOffset p (chainA nA) = some (p + o1 + o2) ∧
    (chainC nA nB nC o1 o2).applyOffset p (chainA nA) =
      ((chainC nA nB nC o1 o2).applyOffset p (chainB nA nB o2)).bind
        (fun q => (chainB nA nB o2).applyOffset q (chainA nA)) := by
  simp [chainC, chainB, chainA, Class.applyOffset, Class.applyOffsetBases,
    Class.containsBase, Class.anyContainsBase, Class.name, hCA, hCB, hBA,
    add_assoc]

/-- Witness for C1: concrete chain with offsets 8 and 16 and base address
100. -/
theorem applyOffset_chain_witness :
    (chainC "A" "B" "C" 8 16).applyOffset 100 (chainA "A") = some 124 ∧
    (chainC "A" "B" "C" 8 16).applyOffset 100 (chainA "A") =
      ((chainC "A" "B" "C" 8 16).applyOffset 100 (chainB "A" "B" 16)).bind
        (fun q => (chainB "A" "B" 16).applyOffset q (chainA "A")) := by
  have h := applyOffset_chain "A" "B" "C" 8 16 100
    (by decide) (by decide) (by decide)
  exact ⟨h.1.trans (by norm_num), h.2⟩

/-- C2: for every `Class` with an empty base list and every pointer,
`applyOffset` targeting the class itself succeeds (boolean result true,
modelled as `some`) with the address unchanged, and `applyOffset` targeting
any other metaclass (one whose name differs, metaclass equality being by
name) fails by returning its boolean result false (modelled as `none`),
never by a thrown failure. -/
theorem applyOffset_no_bases (c u : Class) (p : Int)
    (hb : c.bases = []) (hu : u.name ≠ c.name) :
    c.applyOffset p c = some p ∧ c.applyOffset p u = none := by
  cases c with
  | mk n bs fs ps ks =>
    cases u with
    | mk m bs2 fs2 ps2 ks2 =>
      simp only [Class.bases] at hb
      subst hb
      simp only [Class.name] at hu
      constructor
      · simp [Class.applyOffset, Class.name]
      · simp [Class.applyOffset, Class.applyOffsetBases, Class.name,
          Ne.symm hu]

/-- Witness for C2: a concrete base-less class, an unrelated class and
address 42. -/
theorem applyOffset_no_bases_witness :
    (Class.mk "A" [] [] [] []).applyOffset 42 (Class.mk "A" [] [] [] []) =
      some 42 ∧
    (Class.mk "A" [] [] [] []).applyOffset 42 (Class.mk "B" [] [] [] []) =
      none :=
  applyOffset_no_bases (Class.mk "A" [] [] [] [])
    (Class.mk "B" [] [] [] []) 42 rfl (by decide)

/-- C6: for every property and bound object, `Property::get` fails with
`InvalidObject` when the object is not a valid bound instance; otherwise it
fails with `InvalidAccess` when `readable(object)` is false, regardless of
the property's value or declared type; only when the object is valid and
`readable(object)` is true does it return the value produced by the
concrete subclass's read implementation (`getValue`). -/
theorem Property.get_spec (p : Property) (o1 o2 o3 : UserObject)
    (h1 : o1.valid = false)
    (h2 : o2.valid = true) (h2r : p.readable o2 = .ok false)
    (h3 : o3.valid = true) (h3r : p.readable o3 = .ok true) :
    p.get o1 = .error .InvalidObject ∧
    p.get o2 = .error .InvalidAccess ∧
    p.get o3 = .ok (p.getValueImpl o3) := by
  have hv2 : p.readableVal o2 = false := by
    simpa [Property.readable, h2] using h2r
  have hv3 : p.readableVal o3 = true := by
    simpa [Property.readable, h3] using h3r
  refine ⟨?_, ?_, ?_⟩ <;> simp [Property.get, h1, h2, hv2, h3, hv3]

/-- Witness for C6: the guarded test property against an invalid object, a
valid non-readable object and a valid readable object. -/
theorem Property.get_spec_witness :
    guardedProp.get ⟨false, 0⟩ = .error .InvalidObject ∧
    guardedProp.get ⟨true, 0⟩ = .error .InvalidAccess ∧
    guardedProp.get ⟨true, 1⟩ = .ok (guardedProp.getValueImpl ⟨true, 1⟩) :=
  Property.get_spec guardedProp ⟨false, 0⟩ ⟨true, 0⟩ ⟨true, 1⟩
    rfl rfl rfl rfl rfl

/-- C7: for every property, bound object and value, `Property::set` fails
with `InvalidObject` when the object is invalid, fails with `InvalidAccess`
when `writable(object)` is false, and additionally fails with
`InvalidValue` when the value cannot be converted to the property's
declared type; only when all three checks pass does it delegate to the
concrete subclass's write implementation (`setValue`). -/
theorem Property.set_spec (p : Property) (o1 o2 o3 o4 : UserObject)
    (v1 v2 v3 v4 w : Value)
    (h1 : o1.valid = false)
    (h2 : o2.valid = true) (h2w : p.writable o2 = .ok false)
    (h3 : o3.valid = true) (h3w : p.writable o3 = .ok true)
    (h3c : convert v3 p.m_type = none)
    (h4 : o4.valid = true) (h4w : p.writable o4 = .ok true)
    (h4c : convert v4 p.m_type = some w) :
    p.set o1 v1 = .error .InvalidObject ∧
    p.set o2 v2 = .error .InvalidAccess ∧
    p.set o3 v3 = .error .InvalidValue ∧
    p.set o4 v4 = .ok (p.setValueImpl o4 w) := by
  have hv2 : p.writableVal o2 = false := by
    simpa [Property.writable, h2] using h2w
  have hv3 : p.writableVal o3 = true := by
    simpa [Property.writable, h3] using h3w
  have hv4 : p.writableVal o4 = true := by
    simpa [Property.writable, h4] using h4w
  refine ⟨?_, ?_, ?_, ?_⟩ <;>
    simp [Property.set, h1, h2, hv2, h3, hv3, h3c, h4, hv4, h4c]

/-- Witness for C7: the guarded test property against an invalid object, a
valid non-writable object, and a valid writable object given first an
inconvertible value (a bound object against the integer type) and then an
already-integer value. -/
theorem Property.set_spec_witness :
    guardedProp.set ⟨false, 0⟩ (.intV 4) = .error .InvalidObject ∧
    guardedProp.set ⟨true, 0⟩ (.intV 4) = .error .InvalidAccess ∧
    guardedProp.set ⟨true, 1⟩ (.userV 0) = .error .InvalidValue ∧
    guardedProp.set ⟨true, 1⟩ (.intV 5) =
      .ok (guardedProp.setValueImpl ⟨true, 1⟩ (.intV 5)) :=
  Property.set_spec guardedProp ⟨false, 0⟩ ⟨true, 0⟩ ⟨true, 1⟩ ⟨true, 1⟩
    (.intV 4) (.intV 4) (.userV 0) (.intV 5) (.intV 5)
    rfl rfl rfl rfl rfl rfl rfl rfl rfl

/-- Helper: the constructor loop skips every non-accepting constructor and
creates from the first accepting one. -/
theorem tryConstructors_first (pre post : List Constructor) (k : Constructor)
    (args : List Value) (hpre : ∀ j ∈ pre, j.matchesArgs args = false)
    (hk : k.matchesArgs args = true) :
    tryConstructors (pre ++ k :: post) args = some (k.create args) := by
  induction pre with
  | nil => simp [tryConstructors, hk]
  | cons j rest ih =>
    have hj := hpre j (List.mem_cons_self j rest)
    simp only [List.cons_append, tryConstructors, hj]
    exact ih fun x hx => hpre x (List.mem_cons_of_mem j hx)

/-- Helper: the constructor loop yields null when no constructor accepts
the argument list. -/
theorem tryConstructors_none (ks : List Constructor) (args : List Value)
    (h : ∀ j ∈ ks, j.matchesArgs args = false) :
    tryConstructors ks args = none := by
  induction ks with
  | nil => rfl
  | cons j rest ih =>
    have hj := h j (List.mem_cons_self j rest)
    simp only [tryConstructors, hj]
    exact ih fun x hx => h x (List.mem_cons_of_mem j hx)

/-- Helper: when no entry of a base list transitively contains the target,
each entry's containment test is false. -/
theorem anyContainsBase_false (bs : List (Class × Int)) (t : Class)
    (h : Class.anyContainsBase bs t = false) :
    ∀ x ∈ bs, x.1.containsBase t = false := by
  induction bs with
  | nil => intro x hx; cases hx
  | cons b rest ih =>
    intro x hx
    simp only [Class.anyContainsBase, Bool.or_eq_false_iff] at h
    rcases List.mem_cons.1 hx with rfl | hx2
    · exact h.1
    · exact ih h.2 x hx2

/-- Helper: the base scan of `applyOffset` fails when every entry's
containment test is false. -/
theorem applyOffsetBases_none (bs : List (Class × Int)) (p : Int) (t : Class)
    (h : ∀ x ∈ bs, x.1.containsBase t = false) :
    Class.applyOffsetBases bs p t = none := by
  induction bs with
  | nil => rfl
  | cons b rest ih =>
    have hb := h b (List.mem_cons_self b rest)
    cases b with
    | mk bc off =>
      simp only [Class.applyOffsetBases, hb]
      exact ih fun x hx => h x (List.mem_cons_of_mem _ hx)

/-- Helper: `applyOffset` fails whenever the target is not transitively
contained in the inheritance graph of the class. -/
theorem applyOffset_none_of_not_contains (c t : Class) (p : Int)
    (h : c.containsBase t = false) : c.applyOffset p t = none := by
  cases c with
  | mk n bs fs ps ks =>
    simp only [Class.containsBase, Bool.or_eq_false_iff,
      decide_eq_false_iff_not] at h
    simp only [Class.applyOffset, if_neg h.1]
    exact applyOffsetBases_none bs p t (anyContainsBase_false bs t h.2)

/-- C8: `Class::construct` tries the registered constructors in
registration order and returns a pointer from the first constructor that
accepts the argument list; when no registered constructor accepts the
arguments, or the requested target kind is incompatible with the bound
type, it returns a null pointer (`none`) rather than raising any failure. -/
theorem Class.construct_spec (c t : Class) (target : Option Class)
    (args args2 : List Value) (pre post : List Constructor) (k : Constructor)
    (hsplit : c.constructors = pre ++ k :: post)
    (hpre : ∀ j ∈ pre, j.matchesArgs args = false)
    (hk : k.matchesArgs args = true)
    (hnone : ∀ j ∈ c.constructors, j.matchesArgs args2 = false)
    (ht : c.containsBase t = false) :
    c.construct none args = some (k.create args) ∧
    c.construct target args2 = none ∧
    c.construct (some t) args = none := by
  have hfirst : tryConstructors c.constructors args = some (k.create args) := by
    rw [hsplit]; exact tryConstructors_first pre post k args hpre hk
  refine ⟨?_, ?_, ?_⟩
  · simp [Class.construct, hfirst]
  · simp [Class.construct, tryConstructors_none c.constructors args2 hnone]
  · simp [Class.construct, hfirst,
      applyOffset_none_of_not_contains c t (k.create args) ht]

/-- Witness for C8: a class with a unary and a binary constructor, a
one-element argument list (the second constructor is the first match), an
empty argument list (no match) and an unrelated target class. -/
theorem Class.construct_spec_witness :
    (Class.mk "X" [] [] [] [unaryCtor, binaryCtor]).construct none
      [Value.intV 3] = some (unaryCtor.create [Value.intV 3]) ∧
    (Class.mk "X" [] [] [] [unaryCtor, binaryCtor]).construct none [] = none ∧
    (Class.mk "X" [] [] [] [unaryCtor, binaryCtor]).construct
      (some (Class.mk "Y" [] [] [] [])) [Value.intV 3] = none := by
  have h := Class.construct_spec (Class.mk "X" [] [] [] [unaryCtor, binaryCtor])
    (Class.mk "Y" [] [] [] []) none [Value.intV 3] [] [] [binaryCtor] unaryCtor
    rfl (by intro j hj; cases hj) rfl
    (by
      intro j hj
      simp only [Class.constructors] at hj
      rcases List.mem_cons.1 hj with rfl | hj2
      · rfl
      · rcases List.mem_cons.1 hj2 with rfl | hj3
        · rfl
        · cases hj3)
    rfl
  exact h

/-- C10: for every class and name, `Class::hasProperty` returns true
exactly when the name lookup `Class::property(name)` succeeds rather than
failing with `UnknownProperty`, and `Class::hasFunction` returns true
exactly when `Class::function(name)` succeeds rather than failing with
`UnknownFunction`: the boolean membership predicates and the throwing name
lookups agree on the same member tables. -/
theorem Class.memberLookup_agreement (c : Class) (s : String) :
    (c.hasProperty s = true ↔
      c.propertyByName s ≠ .error CampError.UnknownProperty) ∧
    (c.hasFunction s = true ↔
      c.functionByName s ≠ .error CampError.UnknownFunction) := by
  constructor
  · unfold Class.hasProperty Class.propertyByName
    cases c.properties.lookup s <;> simp
  · unfold Class.hasFunction Class.functionByName
    cases c.functions.lookup s <;> simp

/-- C3: for every registry state in which a metaclass named `n` is already
registered, `registerNew(n, id)` fails with `DuplicateClass` and the
registry state is unchanged by the failed call: the original class
registered under `n`, `m_byName`, `m_byId` and both counts are exactly as
before the call. -/
theorem ClassManager.registerNew_duplicate (r : ClassManager)
    (n id : String) (h0 : Nat) (h : mapFind n r.m_byName = some h0) :
    (r.registerNew n id).1 = r ∧
    (r.registerNew n id).2 = .error CampError.DuplicateClass ∧
    mapFind n (r.registerNew n id).1.m_byName = some h0 ∧
    (r.registerNew n id).1.m_byName = r.m_byName ∧
    (r.registerNew n id).1.m_byId = r.m_byId ∧
    (r.registerNew n id).1.countTotal = r.countTotal ∧
    ∀ i : String, (r.registerNew n id).1.countId i = r.countId i := by
  simp [ClassManager.registerNew, h]

/-- Witness for C3: a registry holding one class named `A`, re-registering
the name `A`. -/
theorem ClassManager.registerNew_duplicate_witness :
    (((ClassManager.empty.registerNew "A" "tidA").1.registerNew "A" "tidB").1 =
        (ClassManager.empty.registerNew "A" "tidA").1 ∧
      ((ClassManager.empty.registerNew "A" "tidA").1.registerNew "A" "tidB").2 =
        .error CampError.DuplicateClass ∧
      mapFind "A"
          ((ClassManager.empty.registerNew "A" "tidA").1.registerNew
            "A" "tidB").1.m_byName = some 0 ∧
      ((ClassManager.empty.registerNew "A" "tidA").1.registerNew
          "A" "tidB").1.m_byName =
        (ClassManager.empty.registerNew "A" "tidA").1.m_byName ∧
      ((ClassManager.empty.registerNew "A" "tidA").1.registerNew
          "A" "tidB").1.m_byId =
        (ClassManager.empty.registerNew "A" "tidA").1.m_byId ∧
      ((ClassManager.empty.registerNew "A" "tidA").1.registerNew
          "A" "tidB").1.countTotal =
        (ClassManager.empty.registerNew "A" "tidA").1.countTotal ∧
      ∀ i : String,
        ((ClassManager.empty.registerNew "A" "tidA").1.registerNew
            "A" "tidB").1.countId i =
          (ClassManager.empty.registerNew "A" "tidA").1.countId i) :=
  ClassManager.registerNew_duplicate
    (ClassManager.empty.registerNew "A" "tidA").1 "A" "tidB" 0 rfl

/-- C4: for every identifier and index, `getById(id, i)` fails with
`UnknownClass` when `count(id) = 0`, and fails with `IndexOutOfRange`
whenever the identifier is bound and `i >= count(id)` — in particular, when
exactly one metaclass is bound to the identifier and `i >= 1`, the call
fails rather than returning that single metaclass. -/
theorem ClassManager.getById_spec (r : ClassManager) (idA idB idC : String)
    (i j k : Nat)
    (h1 : r.countId idA = 0)
    (h2 : 0 < r.countId idB) (h2i : r.countId idB ≤ j)
    (h3 : r.countId idC = 1) (h3i : 1 ≤ k) :
    r.getById idA i = .error CampError.UnknownClass ∧
    r.getById idB j = .error CampError.IndexOutOfRange ∧
    r.getById idC k = .error CampError.IndexOutOfRange := by
  unfold ClassManager.countId at h1 h2 h2i h3
  refine ⟨?_, ?_, ?_⟩
  · simp [ClassManager.getById, h1]
  · simp only [ClassManager.getById]
    rw [if_neg (by omega), if_pos h2i]
  · simp only [ClassManager.getById]
    rw [if_neg (by omega), if_pos (by omega)]

/-- Witness for C4: a registry holding a single class bound to identifier
`tid`, probed with an unknown identifier, with the out-of-range index 5,
and with index 1 against the single-element binding. -/
theorem ClassManager.getById_spec_witness :
    (ClassManager.empty.registerNew "A" "tid").1.getById "none" 0 =
      .error CampError.UnknownClass ∧
    (ClassManager.empty.registerNew "A" "tid").1.getById "tid" 5 =
      .error CampError.IndexOutOfRange ∧
    (ClassManager.empty.registerNew "A" "tid").1.getById "tid" 1 =
      .error CampError.IndexOutOfRange :=
  ClassManager.getById_spec (ClassManager.empty.registerNew "A" "tid").1
    "none" "tid" "tid" 0 5 1 rfl (by decide) (by decide) rfl (by decide)

/-- Helper: the lexicographic character comparison is irreflexive. -/
theorem charsLt_irrefl : ∀ l : List Char, charsLt l l = false
  | [] => rfl
  | c :: cs => by simp [charsLt, charsLt_irrefl cs]

/-- Helper: the lexicographic character comparison is transitive. -/
theorem charsLt_trans : ∀ {a b c : List Char},
    charsLt a b = true → charsLt b c = true → charsLt a c = true
  | [], [], _, h1, _ => by cases h1
  | [], _ :: _, [], _, h2 => by cases h2
  | [], _ :: _, _ :: _, _, _ => rfl
  | _ :: _, [], _, h1, _ => by cases h1
  | _ :: _, _ :: _, [], _, h2 => by cases h2
  | x :: xs, d :: ds, e :: es, h1, h2 => by
    simp only [charsLt] at h1 h2 ⊢
    by_cases hxd : x.toNat < d.toNat
    · by_cases hde : d.toNat < e.toNat
      · rw [if_pos (lt_trans hxd hde)]
      · rw [if_neg hde] at h2
        by_cases hed : e.toNat < d.toNat
        · rw [if_pos hed] at h2; cases h2
        · rw [if_pos (show x.toNat < e.toNat by omega)]
    · rw [if_neg hxd] at h1
      by_cases hdx : d.toNat < x.toNat
      · rw [if_pos hdx] at h1; cases h1
      · rw [if_neg hdx] at h1
        by_cases hde : d.toNat < e.toNat
        · rw [if_pos (show x.toNat < e.toNat by omega)]
        · rw [if_neg hde] at h2
          by_cases hed : e.toNat < d.toNat
          · rw [if_pos hed] at h2; cases h2
          · rw [if_neg hed] at h2
            rw [if_neg (show ¬x.toNat < e.toNat by omega),
              if_neg (show ¬e.toNat < x.toNat by omega)]
            exact charsLt_trans h1 h2

/-- Helper: the lexicographic character comparison is total: two distinct
sequences compare strictly in one direction or the other. -/
theorem charsLt_connex : ∀ {a b : List Char},
    charsLt a b = false → a ≠ b → charsLt b a = true
  | [], [], _, hne => absurd rfl hne
  | [], _ :: _, h1, _ => by cases h1
  | _ :: _, [], _, _ => rfl
  | x :: xs, d :: ds, h1, hne => by
    simp only [charsLt] at h1 ⊢
    by_cases hxd : x.toNat < d.toNat
    · rw [if_pos hxd] at h1; cases h1
    · rw [if_neg hxd] at h1
      by_cases hdx : d.toNat < x.toNat
      · rw [if_pos hdx]
      · rw [if_neg hdx] at h1
        have hnat : x.toNat = d.toNat := by omega
        have hx : x = d := Char.ext (UInt32.toNat.inj hnat)
        subst hx
        have hxs : xs ≠ ds := fun h => hne (by rw [h])
        rw [if_neg hxd, if_neg hdx]
        exact charsLt_connex h1 hxs

/-- Helper: the key order is irreflexive. -/
theorem strLt_irrefl (a : String) : strLt a a = false :=
  charsLt_irrefl a.data

/-- Helper: the key order is transitive. -/
theorem strLt_trans {a b c : String} (h1 : strLt a b = true)
    (h2 : strLt b c = true) : strLt a c = true :=
  charsLt_trans h1 h2

/-- Helper: the key order is total on distinct strings. -/
theorem strLt_connex {a b : String} (h1 : strLt a b = false) (hne : a ≠ b) :
    strLt b a = true :=
  charsLt_connex h1 fun h => hne (String.ext h)

/-- Helper: an entry of an updated map is the inserted pair or an entry of
the original map. -/
theorem mapInsert_mem {k : String} {v : α} {l : List (String × α)}
    {x : String × α} (hx : x ∈ mapInsert k v l) : x = (k, v) ∨ x ∈ l := by
  induction l with
  | nil => simpa [mapInsert] using hx
  | cons hd rest ih =>
    obtain ⟨q, w⟩ := hd
    simp only [mapInsert] at hx
    split at hx
    · rcases List.mem_cons.1 hx with rfl | hx2
      · exact Or.inl rfl
      · exact Or.inr hx2
    · split at hx
      · exact Or.inr hx
      · rcases List.mem_cons.1 hx with rfl | hx2
        · exact Or.inr (List.mem_cons_self _ _)
        · rcases ih hx2 with h | h
          · exact Or.inl h
          · exact Or.inr (List.mem_cons_of_mem _ h)

/-- Helper: map insertion preserves the sorted-map invariant. -/
theorem mapInsert_keySorted {k : String} {v : α} {l : List (String × α)}
    (hs : KeySorted l) : KeySorted (mapInsert k v l) := by
  induction l with
  | nil => simp [mapInsert, KeySorted]
  | cons hd rest ih =>
    obtain ⟨q, w⟩ := hd
    rw [KeySorted, List.pairwise_cons] at hs
    obtain ⟨hq, hrest⟩ := hs
    simp only [mapInsert]
    split
    · rename_i hlt
      rw [KeySorted, List.pairwise_cons]
      refine ⟨?_, List.pairwise_cons.2 ⟨hq, hrest⟩⟩
      intro x hx
      rcases List.mem_cons.1 hx with rfl | hx2
      · exact hlt
      · exact strLt_trans hlt (hq x hx2)
    · split
      · exact List.pairwise_cons.2 ⟨hq, hrest⟩
      · rename_i hnlt hne
        rw [KeySorted, List.pairwise_cons]
        refine ⟨?_, ih hrest⟩
        intro x hx
        rcases mapInsert_mem hx with rfl | hx2
        · exact strLt_connex (by simpa using hnlt) hne
        · exact hq x hx2

/-- Helper: over a sorted map, a successful find is exactly membership of
the key-value pair. -/
theorem mapFind_eq_some_iff {l : List (String × α)} (hs : KeySorted l)
    {n : String} {a : α} : mapFind n l = some a ↔ (n, a) ∈ l := by
  induction l with
  | nil => simp [mapFind]
  | cons hd rest ih =>
    obtain ⟨q, w⟩ := hd
    rw [KeySorted, List.pairwise_cons] at hs
    obtain ⟨hq, hrest⟩ := hs
    by_cases hn : n = q
    · subst hn
      have hfind : mapFind n ((n, w) :: rest) = some w := by simp [mapFind]
      rw [hfind]
      constructor
      · intro h
        injection h with hwa
        rw [← hwa]
        exact List.mem_cons_self _ _
      · intro h
        rcases List.mem_cons.1 h with heq | hmem
        · injection heq with h1 h2
          rw [h2]
        · exact absurd (hq _ hmem) (by simp [strLt_irrefl])
    · simp only [mapFind, if_neg hn, ih hrest, List.mem_cons, Prod.mk.injEq]
      constructor
      · intro h; exact Or.inr h
      · intro h
        rcases h with ⟨hnq, _⟩ | hmem
        · exact absurd hnq hn
        · exact hmem

/-- Helper: inserting under one key leaves the find of any other key
unchanged. -/
theorem mapFind_mapInsert_of_ne {q k : String} (hne : q ≠ k) (v : α)
    (l : List (String × α)) : mapFind q (mapInsert k v l) = mapFind q l := by
  induction l with
  | nil => simp [mapInsert, mapFind, hne]
  | cons hd rest ih =>
    obtain ⟨p, w⟩ := hd
    simp only [mapInsert]
    split
    · simp [mapFind, hne]
    · split
      · rfl
      · by_cases hqp : q = p
        · simp [mapFind, hqp]
        · simp [mapFind, hqp, ih]

/-- Helper: inserting a key that was not present grows the map by exactly
one entry. -/
theorem mapInsert_length_of_not_found {k : String} {v : α}
    {l : List (String × α)} (h : mapFind k l = none) :
    (mapInsert k v l).length = l.length + 1 := by
  induction l with
  | nil => rfl
  | cons hd rest ih =>
    obtain ⟨q, w⟩ := hd
    by_cases hk : k = q
    · simp [mapFind, hk] at h
    · simp only [mapFind, if_neg hk] at h
      simp only [mapInsert, if_neg hk]
      split
      · simp
      · simp [ih h]

/-- Helper invariant of registration sequences: starting from a sorted
`m_byName` in which none of the (pairwise distinct) names to be registered
is present, the resulting `m_byName` is sorted and has grown by exactly one
entry per registration. -/
theorem registerSequence_invariant :
    ∀ (l : List (String × String)) (r : ClassManager),
      KeySorted r.m_byName →
      (∀ n ∈ l.map Prod.fst, mapFind n r.m_byName = none) →
      (l.map Prod.fst).Nodup →
      KeySorted (r.registerSequence l).m_byName ∧
      (r.registerSequence l).m_byName.length = r.m_byName.length + l.length
  | [], r, hs, _, _ => by
    simpa [ClassManager.registerSequence] using hs
  | (n, id) :: rest, r, hs, hfresh, hnd => by
    have hn : mapFind n r.m_byName = none := hfresh n (by simp)
    have hnot : ¬(mapFind n r.m_byName).isSome := by simp [hn]
    have hstep : (r.registerNew n id).1 =
        ⟨mapInsert n r.nextHandle r.m_byName,
          byIdInsert id r.nextHandle r.m_byId, r.nextHandle + 1⟩ := by
      simp [ClassManager.registerNew, hnot]
    simp only [List.map_cons, List.nodup_cons] at hnd
    have hrest := registerSequence_invariant rest (r.registerNew n id).1
      (by rw [hstep]; exact mapInsert_keySorted hs)
      (by
        intro m hm
        rw [hstep]
        have hmn : m ≠ n := fun hmn => hnd.1 (hmn ▸ hm)
        rw [mapFind_mapInsert_of_ne hmn]
        exact hfresh m (by simp [hm]))
      hnd.2
    have hlen : (r.registerNew n id).1.m_byName.length =
        r.m_byName.length + 1 := by
      rw [hstep]; exact mapInsert_length_of_not_found hn
    refine ⟨?_, ?_⟩
    · simpa [ClassManager.registerSequence] using hrest.1
    · simp only [ClassManager.registerSequence, List.length_cons]
      rw [hrest.2, hlen]
      omega

/-- Helper: over a sorted registry, the classes reachable through the
global enumeration are exactly those reachable through by-name lookup. -/
theorem enumeration_reaches_byName (r : ClassManager)
    (hs : KeySorted r.m_byName) (h : Nat) :
    (∃ i, i < r.countTotal ∧ r.getByIndex i = .ok h) ↔
    (∃ n, r.getByName n = .ok h) := by
  constructor
  · rintro ⟨i, hi, hget⟩
    unfold ClassManager.countTotal at hi
    unfold ClassManager.getByIndex at hget
    rw [if_neg (by omega)] at hget
    have hgd : r.m_byName.getD i ("", 0) = r.m_byName[i] :=
      List.getD_eq_getElem r.m_byName ("", 0) hi
    rw [hgd] at hget
    have hmem : (r.m_byName[i].1, r.m_byName[i].2) ∈ r.m_byName := by
      rw [Prod.mk.eta]; exact List.getElem_mem hi
    refine ⟨r.m_byName[i].1, ?_⟩
    unfold ClassManager.getByName
    rw [(mapFind_eq_some_iff hs).2 hmem]
    simpa using hget
  · rintro ⟨n, hn⟩
    unfold ClassManager.getByName at hn
    cases hfind : mapFind n r.m_byName with
    | none => rw [hfind] at hn; cases hn
    | some a =>
      rw [hfind] at hn
      have ha : a = h := by simpa using hn
      subst ha
      have hmem : (n, a) ∈ r.m_byName := (mapFind_eq_some_iff hs).1 hfind
      obtain ⟨i, hi, hieq⟩ := List.getElem_of_mem hmem
      refine ⟨i, hi, ?_⟩
      unfold ClassManager.getByIndex
      rw [if_neg (by omega), List.getD_eq_getElem r.m_byName ("", 0) hi, hieq]

/-- Counterexample to C5 as stated: registering `b` then `a`, the first
registration creates the class reachable by name `b` (handle 0), but
`getByIndex 0` returns the class registered second (handle 1, name `a`):
the global enumeration follows the name-sorted order of `m_byName`, not
insertion order. -/
theorem getByIndex_not_insertion_order :
    (ClassManager.registerSequence ClassManager.empty
        [("b", "tb"), ("a", "ta")]).getByName "b" = .ok 0 ∧
    (ClassManager.registerSequence ClassManager.empty
        [("b", "tb"), ("a", "ta")]).getByIndex 0 = .ok 1 ∧
    Except.ok (ε := CampError) (1 : Nat) ≠ .ok 0 := by
  refine ⟨rfl, rfl, by simp⟩

/-- C5 (amended): for every sequence of successful registrations, `count()`
equals the number of registrations so far, the global enumeration
(`count()` / `getByIndex()`) walks the registered classes in name-sorted
order — the stored order of `m_byName`, not insertion order — and that
enumeration, together with `byName` lookups, reaches exactly the same set
of class references (no class reachable by one index but not the other). -/
theorem ClassManager.enumeration_spec (l : List (String × String))
    (R : ClassManager)
    (hR : R = ClassManager.registerSequence ClassManager.empty l)
    (hnd : (l.map Prod.fst).Nodup) :
    R.countTotal = l.length ∧
    KeySorted R.m_byName ∧
    (∀ h : Nat, (∃ i, i < R.countTotal ∧ R.getByIndex i = .ok h) ↔
      ∃ n, R.getByName n = .ok h) := by
  subst hR
  have hinv := registerSequence_invariant l ClassManager.empty
    (by simp [KeySorted, ClassManager.empty])
    (by intro n _; rfl) hnd
  refine ⟨?_, hinv.1, fun h =>
    enumeration_reaches_byName _ hinv.1 h⟩
  unfold ClassManager.countTotal
  simpa [ClassManager.empty] using hinv.2

/-- Witness for C5 (amended): the two-registration sequence `b`, `a`. -/
theorem ClassManager.enumeration_spec_witness :
    (ClassManager.registerSequence ClassManager.empty
        [("b", "tb"), ("a", "ta")]).countTotal = 2 ∧
    KeySorted (ClassManager.registerSequence ClassManager.empty
        [("b", "tb"), ("a", "ta")]).m_byName ∧
    (∀ h : Nat,
      (∃ i, i < (ClassManager.registerSequence ClassManager.empty
          [("b", "tb"), ("a", "ta")]).countTotal ∧
        (ClassManager.registerSequence ClassManager.empty
          [("b", "tb"), ("a", "ta")]).getByIndex i = .ok h) ↔
      ∃ n, (ClassManager.registerSequence ClassManager.empty
          [("b", "tb"), ("a", "ta")]).getByName n = .ok h) :=
  ClassManager.enumeration_spec [("b", "tb"), ("a", "ta")] _ rfl (by decide)

/-- Helper: strictly smaller keys are distinct. -/
theorem strLt_ne {a b : String} (h : strLt a b = true) : a ≠ b := by
  intro heq
  subst heq
  rw [strLt_irrefl] at h
  cases h

/-- Helper: a filter-map keeping every element is a map. -/
theorem filterMap_some_eq_map (f : β → γ) (l : List β) :
    (l.filterMap fun x => some (f x)) = l.map f :=
  congrFun (List.filterMap_eq_map f) l

/-- Helper: a filter-map keeping nothing is empty. -/
theorem filterMap_none_eq_nil : ∀ l : List β,
    (l.filterMap fun _ => (none : Option γ)) = []
  | [] => rfl
  | a :: l => by rw [List.filterMap_cons_none rfl, filterMap_none_eq_nil l]

/-- Counterexample to C9 as stated: in `regOrderClass` the builder appended
a property named `b` first and a property named `a` second, so registration
order is `b`, `a`; but the property table is a `std::map` keyed by name
(`class.hpp` line 294), so visitation presents the properties in the stored
name-sorted order `a`, `b`, not in registration order. -/
theorem visit_not_registration_order :
    Class.visitPropNames regOrderClass = ["a", "b"] ∧
    (["a", "b"] : List String) ≠ ["b", "a"] := by
  exact ⟨rfl, by decide⟩

/-- C9 (amended): `Class::visit` presents every base, every property and
every function of the class to the visitor exactly once each, and the
traversal does not mutate the class (it is the pure event sequence
`visitSeq`); the bases are presented in registration order, while the
properties and the functions are presented in the stored name-sorted order
of their `std::map` tables rather than in registration order. -/
theorem Class.visit_spec (c : Class)
    (hb : (c.bases.map fun x => x.1.name).Nodup)
    (hp : KeySorted c.properties) (hf : KeySorted c.functions) :
    (∀ x ∈ c.bases, c.visitSeq.count (.baseE x.1.name) = 1) ∧
    (∀ x ∈ c.properties, c.visitSeq.count (.propE x.1) = 1) ∧
    (∀ x ∈ c.functions, c.visitSeq.count (.funcE x.1) = 1) ∧
    c.visitBaseNames = c.bases.map (fun x => x.1.name) ∧
    c.visitPropNames = c.properties.map Prod.fst ∧
    c.visitFuncNames = c.functions.map Prod.fst ∧
    List.Pairwise (fun a b => strLt a b = true) c.visitPropNames ∧
    List.Pairwise (fun a b => strLt a b = true) c.visitFuncNames := by
  have hpnd : (c.properties.map Prod.fst).Nodup :=
    List.pairwise_map.2 (hp.imp fun h => strLt_ne h)
  have hfnd : (c.functions.map Prod.fst).Nodup :=
    List.pairwise_map.2 (hf.imp fun h => strLt_ne h)
  have hbase : c.visitBaseNames = c.bases.map (fun x => x.1.name) := by
    simp only [Class.visitBaseNames, Class.visitSeq, List.filterMap_append,
      List.filterMap_map, Function.comp_def]
    rw [filterMap_some_eq_map, filterMap_none_eq_nil, filterMap_none_eq_nil]
    simp
  have hprop : c.visitPropNames = c.properties.map Prod.fst := by
    simp only [Class.visitPropNames, Class.visitSeq, List.filterMap_append,
      List.filterMap_map, Function.comp_def]
    rw [filterMap_some_eq_map, filterMap_none_eq_nil, filterMap_none_eq_nil]
    simp
  have hfunc : c.visitFuncNames = c.functions.map Prod.fst := by
    simp only [Class.visitFuncNames, Class.visitSeq, List.filterMap_append,
      List.filterMap_map, Function.comp_def]
    rw [filterMap_some_eq_map, filterMap_none_eq_nil, filterMap_none_eq_nil]
    simp
  refine ⟨?_, ?_, ?_, hbase, hprop, hfunc, ?_, ?_⟩
  · intro x hx
    rw [Class.visitSeq, List.count_append, List.count_append]
    have h2 : (c.properties.map fun p => VisitEvent.propE p.1).count
        (.baseE x.1.name) = 0 := by
      rw [List.count_eq_zero]
      simp
    have h3 : (c.functions.map fun f => VisitEvent.funcE f.1).count
        (.baseE x.1.name) = 0 := by
      rw [List.count_eq_zero]
      simp
    have h1 : (c.bases.map fun b => VisitEvent.baseE b.1.name).count
        (.baseE x.1.name) = 1 := by
      have hmm : (c.bases.map fun b => VisitEvent.baseE b.1.name) =
          (c.bases.map fun b => b.1.name).map VisitEvent.baseE := by
        rw [List.map_map]; rfl
      rw [hmm, List.count_map_of_injective _ VisitEvent.baseE
        (fun a b h => by injection h)]
      exact List.count_eq_one_of_mem hb (List.mem_map_of_mem _ hx)
    omega
  · intro x hx
    rw [Class.visitSeq, List.count_append, List.count_append]
    have h1 : (c.bases.map fun b => VisitEvent.baseE b.1.name).count
        (.propE x.1) = 0 := by
      rw [List.count_eq_zero]
      simp
    have h3 : (c.functions.map fun f => VisitEvent.funcE f.1).count
        (.propE x.1) = 0 := by
      rw [List.count_eq_zero]
      simp
    have h2 : (c.properties.map fun p => VisitEvent.propE p.1).count
        (.propE x.1) = 1 := by
      have hmm : (c.properties.map fun p => VisitEvent.propE p.1) =
          (c.properties.map Prod.fst).map VisitEvent.propE := by
        rw [List.map_map]; rfl
      rw [hmm, List.count_map_of_injective _ VisitEvent.propE
        (fun a b h => by injection h)]
      exact List.count_eq_one_of_mem hpnd (List.mem_map_of_mem _ hx)
    omega
  · intro x hx
    rw [Class.visitSeq, List.count_append, List.count_append]
    have h1 : (c.bases.map fun b => VisitEvent.baseE b.1.name).count
        (.funcE x.1) = 0 := by
      rw [List.count_eq_zero]
      simp
    have h2 : (c.properties.map fun p => VisitEvent.propE p.1).count
        (.funcE x.1) = 0 := by
      rw [List.count_eq_zero]
      simp
    have h3 : (c.functions.map fun f => VisitEvent.funcE f.1).count
        (.funcE x.1) = 1 := by
      have hmm : (c.functions.map fun f => VisitEvent.funcE f.1) =
          (c.functions.map Prod.fst).map VisitEvent.funcE := by
        rw [List.map_map]; rfl
      rw [hmm, List.count_map_of_injective _ VisitEvent.funcE
        (fun a b h => by injection h)]
      exact List.count_eq_one_of_mem hfnd (List.mem_map_of_mem _ hx)
    omega
  · rw [hprop]
    exact List.pairwise_map.2 hp
  · rw [hfunc]
    exact List.pairwise_map.2 hf

/-- Witness for C9 (amended): the concrete `visitClass` with one base, two
properties and two functions. -/
theorem Class.visit_spec_witness :
    ((∀ x ∈ visitClass.bases, visitClass.visitSeq.count (.baseE x.1.name) = 1) ∧
      (∀ x ∈ visitClass.properties,
        visitClass.visitSeq.count (.propE x.1) = 1) ∧
      (∀ x ∈ visitClass.functions,
        visitClass.visitSeq.count (.funcE x.1) = 1) ∧
      visitClass.visitBaseNames = visitClass.bases.map (fun x => x.1.name) ∧
      visitClass.visitPropNames = visitClass.properties.map Prod.fst ∧
      visitClass.visitFuncNames = visitClass.functions.map Prod.fst ∧
      List.Pairwise (fun a b => strLt a b = true) visitClass.visitPropNames ∧
      List.Pairwise (fun a b => strLt a b = true) visitClass.visitFuncNames) :=
  Class.visit_spec visitClass (by decide)
    (by rw [show visitClass.properties =
          [("a", guardedProp), ("b", guardedProp)] from rfl]
        exact List.pairwise_cons.2
          ⟨by intro x hx; rw [List.mem_singleton.1 hx]; decide,
            List.pairwise_singleton _ _⟩)
    (by rw [show visitClass.functions =
          [("f", noopFunc), ("g", noopFunc)] from rfl]
        exact List.pairwise_cons.2
          ⟨by intro x hx; rw [List.mem_singleton.1 hx]; decide,
            List.pairwise_singleton _ _⟩)

end Camp
